import Mathlib

/-!
Verification of the doom-web asset pipeline: the WAD container parser
(src/wadParser.js), the map renderer's collision/polygon construction
(mapRenderer.js) and the game's movement/point-location code (game.js).

Byte buffers are modelled as `List Nat` (each element a byte value).
A JavaScript `DataView` read that would throw a `RangeError` is modelled
as `none`; any thrown exception surfaces as `none` of the enclosing
computation.  Machine integers are `Int` with explicit two's-complement
decoding.  JavaScript numbers that the code only adds, subtracts,
multiplies, divides and compares are modelled as `ℚ` (the map data are
16-bit integers and the player state stays within exactly representable
ranges for the structural properties proved here).
-/

namespace DoomWeb

/-- `DataView.getUint8`: a single byte, `none` when out of range
(JavaScript throws a `RangeError`). -/
def getUint8 (buf : List Nat) (off : Int) : Option Nat :=
  if 0 ≤ off then buf.get? off.toNat else none

/-- Two's-complement decoding of a 16-bit little-endian value. -/
def toInt16 (b0 b1 : Nat) : Int :=
  let v := b0 + 256 * b1
  if v < 32768 then (v : Int) else (v : Int) - 65536

/-- `DataView.getInt16(off, true)`: little-endian signed 16-bit read. -/
def getInt16 (buf : List Nat) (off : Int) : Option Int := do
  let b0 ← getUint8 buf off
  let b1 ← getUint8 buf (off + 1)
  pure (toInt16 b0 b1)

/-- Two's-complement decoding of a 32-bit little-endian value. -/
def toInt32 (b0 b1 b2 b3 : Nat) : Int :=
  let v := b0 + 256 * b1 + 65536 * b2 + 16777216 * b3
  if v < 2147483648 then (v : Int) else (v : Int) - 4294967296

/-- `DataView.getInt32(off, true)`: little-endian signed 32-bit read. -/
def getInt32 (buf : List Nat) (off : Int) : Option Int := do
  let b0 ← getUint8 buf off
  let b1 ← getUint8 buf (off + 1)
  let b2 ← getUint8 buf (off + 2)
  let b3 ← getUint8 buf (off + 3)
  pure (toInt32 b0 b1 b2 b3)

/-- Sequential decoding of one record per listed index, aborting on the
first failed read, as the JavaScript `for` loops do (a `DataView` read
past the view throws and the whole call aborts). -/
def seqOpt {α : Type} (f : Nat → Option α) : List Nat → Option (List α)
  | [] => some []
  | i :: rest => do
      let a ← f i
      let tail ← seqOpt f rest
      pure (a :: tail)

/-- A THINGS record (`wadParser.js`, `parseThings`). -/
structure Thing where
  x : Int
  y : Int
  angle : Int
  type : Int
  flags : Int
deriving DecidableEq, Repr

/-- One iteration of the `parseThings` loop: the five signed 16-bit
fields of the record at byte offset `i * 10` of the lump. -/
def readThing (data : List Nat) (i : Nat) : Option Thing := do
  let off : Int := (i : Int) * 10
  let x ← getInt16 data off
  let y ← getInt16 data (off + 2)
  let angle ← getInt16 data (off + 4)
  let ty ← getInt16 data (off + 6)
  let fl ← getInt16 data (off + 8)
  pure ⟨x, y, angle, ty, fl⟩

/-- `WADParser.parseThings`.  The argument is the THINGS lump's bytes
(`none` when the lump is absent).  The source computes
`count = lump.size / 10` with floating-point division and iterates
`for (let i = 0; i < count; i++)`; for lump sizes below 2^31 the float
comparison `i < size / 10` holds exactly for `i < ⌈size / 10⌉`, so the
loop runs `(size + 9) / 10` times, reading into the truncated trailing
record when the size is not a multiple of 10. -/
def parseThings (lump : Option (List Nat)) : Option (List Thing) :=
  match lump with
  | none => some []
  | some data =>
    if data.length = 0 then some []
    else seqOpt (readThing data) (List.range ((data.length + 9) / 10))

/-- `WADParser.getDefaultPalette`: grayscale fallback, entry `i` is
`(i, i, i)`. -/
def getDefaultPalette : List (Nat × Nat × Nat) :=
  (List.range 256).map (fun i => (i, i, i))

/-- `WADParser.getPalette`.  The argument is the PLAYPAL lump's bytes
(`none` when `getLumpData` returned `null`). -/
def getPalette (playpal : Option (List Nat)) : List (Nat × Nat × Nat) :=
  match playpal with
  | none => getDefaultPalette
  | some d =>
    if d.length < 768 then getDefaultPalette
    else (List.range 256).map (fun i => (d.getD (i * 3) 0, d.getD (i * 3 + 1) 0, d.getD (i * 3 + 2) 0))

/-! ### Helper lemmas -/

theorem mapRange_getD {α : Type} (f : Nat → α) (d : α) (n i : Nat) (h : i < n) :
    ((List.range n).map f).getD i d = f i := by
  simp [List.getD, List.get?_eq_getElem?, List.getElem?_map, List.getElem?_range h]

theorem seqOpt_eq_none {α : Type} (f : Nat → Option α) (l : List Nat) (i : Nat)
    (hi : i ∈ l) (hf : f i = none) : seqOpt f l = none := by
  induction l with
  | nil => cases hi
  | cons a t ih =>
    rcases List.mem_cons.mp hi with h | h
    · subst h
      simp [seqOpt, hf]
    · cases ha : f a with
      | none => simp [seqOpt, ha]
      | some v => simp [seqOpt, ha, ih h]

theorem getUint8_eq_none (buf : List Nat) (off : Int) (h0 : 0 ≤ off)
    (h : buf.length ≤ off.toNat) : getUint8 buf off = none := by
  rw [getUint8, if_pos h0]
  exact List.get?_eq_none.mpr h

theorem getInt16_eq_none (data : List Nat) (off : Int) (h0 : 0 ≤ off)
    (h : data.length ≤ (off + 1).toNat) : getInt16 data off = none := by
  have h1 : getUint8 data (off + 1) = none := getUint8_eq_none data (off + 1) (by omega) h
  cases hb : getUint8 data off with
  | none => simp [getInt16, hb]
  | some b => simp [getInt16, hb, h1]

theorem readThing_eq_none (data : List Nat) (i : Nat)
    (h : getInt16 data ((i : Int) * 10 + 8) = none) : readThing data i = none := by
  simp only [readThing]
  cases h0 : getInt16 data ((i : Int) * 10) with
  | none => simp [h0]
  | some x =>
    cases h2 : getInt16 data ((i : Int) * 10 + 2) with
    | none => simp [h0, h2]
    | some y =>
      cases h4 : getInt16 data ((i : Int) * 10 + 4) with
      | none => simp [h0, h2, h4]
      | some z =>
        cases h6 : getInt16 data ((i : Int) * 10 + 6) with
        | none => simp [h0, h2, h4, h6]
        | some w => simp [h0, h2, h4, h6, h]

/-! ### Claim C3 -/

/-- C3 counterexample: a 15-byte THINGS lump (1.5 records).  The claim
says decoding fails with `TruncatedRecordError`, the category degrades
to an empty sequence, and the decoder never throws mid-way through a
partial trailing record.  The code instead iterates into the partial
trailing record and aborts with an out-of-range `DataView` read; the
result is an exception, not an empty record list. -/
theorem parseThings_truncated_counterexample :
    parseThings (some (List.replicate 15 0)) = none ∧
    (none : Option (List Thing)) ≠ some [] := by
  constructor
  · decide
  · simp

/-- C3 amended: for every THINGS lump whose byte length is not an exact
multiple of the 10-byte record size, the decode loop runs into the
partial trailing record and aborts with an out-of-range read (there is
no `TruncatedRecordError` and the category does not degrade to empty). -/
theorem parseThings_truncated (data : List Nat) (h : data.length % 10 ≠ 0) :
    parseThings (some data) = none := by
  have hne : data.length ≠ 0 := by omega
  have hk : data.length / 10 < (data.length + 9) / 10 := by omega
  have hmem : data.length / 10 ∈ List.range ((data.length + 9) / 10) :=
    List.mem_range.mpr hk
  have hout : data.length ≤ ((((data.length / 10 : Nat) : Int) * 10 + 8) + 1).toNat := by
    omega
  have h8 : getInt16 data (((data.length / 10 : Nat) : Int) * 10 + 8) = none :=
    getInt16_eq_none data _ (by positivity) hout
  have hthing : readThing data (data.length / 10) = none :=
    readThing_eq_none data _ h8
  simp only [parseThings, if_neg hne]
  exact seqOpt_eq_none _ _ _ hmem hthing

/-- C3 amended witness at a concrete 15-byte lump. -/
theorem parseThings_truncated_witness :
    (List.replicate 15 (0 : Nat)).length % 10 ≠ 0 ∧
    parseThings (some (List.replicate 15 0)) = none :=
  ⟨by decide, parseThings_truncated (List.replicate 15 0) (by decide)⟩

/-! ### Claim C10 -/

/-- C10: `getPalette` always returns exactly 256 RGB triples; when the
PLAYPAL lump is absent or shorter than 768 bytes, entry `i` is the
grayscale `(i, i, i)`, and otherwise entry `i` is bytes
`(3i, 3i+1, 3i+2)` of the lump's first 768-byte block. -/
theorem getPalette_spec (pp : Option (List Nat)) :
    (getPalette pp).length = 256 ∧
    ∀ i : Fin 256, (getPalette pp).getD i.val (0, 0, 0) =
      match pp with
      | none => (i.val, i.val, i.val)
      | some d =>
        if d.length < 768 then (i.val, i.val, i.val)
        else (d.getD (i.val * 3) 0, d.getD (i.val * 3 + 1) 0, d.getD (i.val * 3 + 2) 0) := by
  cases pp with
  | none =>
    refine ⟨by simp [getPalette, getDefaultPalette], fun i => ?_⟩
    simp [getPalette, getDefaultPalette, mapRange_getD _ _ 256 i.val i.isLt]
  | some d =>
    by_cases h : d.length < 768
    · refine ⟨by simp [getPalette, getDefaultPalette, h], fun i => ?_⟩
      simp [getPalette, getDefaultPalette, h, mapRange_getD _ _ 256 i.val i.isLt]
    · refine ⟨by simp [getPalette, h], fun i => ?_⟩
      simp [getPalette, h, mapRange_getD _ _ 256 i.val i.isLt]

/-! ### Container parsing (`WADParser.parse`, `WADParser.getLump`) -/

/-- The whitespace bytes stripped by `String.prototype.trim` that can
occur in an 8-bit lump name (tab, LF, VT, FF, CR, space, NBSP). -/
def jsWhitespace (c : Nat) : Bool :=
  c = 9 || c = 10 || c = 11 || c = 12 || c = 13 || c = 32 || c = 160

/-- `name.trim()` on a string of 8-bit characters. -/
def jsTrim (s : List Nat) : List Nat :=
  ((s.dropWhile jsWhitespace).reverse.dropWhile jsWhitespace).reverse

/-- A directory entry (`{ name, offset, size }` in `parse`). -/
structure Lump where
  name : List Nat
  offset : Int
  size : Int
deriving DecidableEq, Repr

/-- `WADParser.readString`: reads up to `len` bytes starting at `off`,
stopping early at a NUL byte; a read past the buffer throws (`none`). -/
def readString (buf : List Nat) (off : Int) : Nat → Option (List Nat)
  | 0 => some []
  | n + 1 => do
      let c ← getUint8 buf off
      if c = 0 then some []
      else do
        let rest ← readString buf (off + 1) n
        pure (c :: rest)

/-- One 16-byte directory entry: int32 offset, int32 size, 8-byte
null-padded name, trimmed. -/
def readEntry (buf : List Nat) (off : Int) : Option Lump := do
  let lumpOffset ← getInt32 buf off
  let lumpSize ← getInt32 buf (off + 4)
  let nameBytes ← readString buf (off + 8) 8
  pure ⟨jsTrim nameBytes, lumpOffset, lumpSize⟩

/-- The directory loop of `parse`: `n` consecutive 16-byte entries. -/
def readEntries (buf : List Nat) (off : Int) : Nat → Option (List Lump)
  | 0 => some []
  | n + 1 => do
      let l ← readEntry buf off
      let rest ← readEntries buf (off + 16) n
      pure (l :: rest)

/-- JavaScript `Map.prototype.set`: replaces the value of an existing
key in place, otherwise appends the new binding. -/
def jsMapSet (m : List (List Nat × Lump)) (k : List Nat) (v : Lump) :
    List (List Nat × Lump) :=
  match m with
  | [] => [(k, v)]
  | (k0, v0) :: rest =>
    if k0 = k then (k0, v) :: rest else (k0, v0) :: jsMapSet rest k v

/-- JavaScript `Map.prototype.get` (keys in a `Map` are unique). -/
def jsMapGet (m : List (List Nat × Lump)) (k : List Nat) : Option Lump :=
  (m.find? (fun p => p.1 == k)).map (fun p => p.2)

/-- The `lumpMap` after the directory loop: every parsed lump was passed
to `Map.set` in directory order. -/
def buildLumpMap (lumps : List Lump) : List (List Nat × Lump) :=
  lumps.foldl (fun m l => jsMapSet m l.name l) []

/-- Post-`parse` parser state (`this.lumps` and `this.lumpMap`). -/
structure ParserState where
  numLumps : Int
  directoryOffset : Int
  lumps : List Lump
  lumpMap : List (List Nat × Lump)
deriving DecidableEq, Repr

def iwadTag : List Nat := [73, 87, 65, 68]

def pwadTag : List Nat := [80, 87, 65, 68]

/-- `WADParser.parse`: validates the 4-byte tag, reads the lump count
and directory offset, then reads that many directory entries (the
`for (let i = 0; i < numLumps; i++)` loop runs zero times when the
signed count is negative).  Throwing paths (bad tag, reads past the
buffer) are `none`. -/
def parse (buf : List Nat) : Option ParserState := do
  let header ← readString buf 0 4
  if header = iwadTag ∨ header = pwadTag then do
    let numLumps ← getInt32 buf 4
    let directoryOffset ← getInt32 buf 8
    let lumps ← readEntries buf directoryOffset numLumps.toNat
    pure ⟨numLumps, directoryOffset, lumps, buildLumpMap lumps⟩
  else none

/-- `WADParser.getLump`. -/
def getLump (st : ParserState) (name : List Nat) : Option Lump :=
  jsMapGet st.lumpMap name

theorem readEntries_length (buf : List Nat) :
    ∀ (n : Nat) (off : Int) (l : List Lump),
      readEntries buf off n = some l → l.length = n := by
  intro n
  induction n with
  | zero =>
    intro off l h
    simp only [readEntries] at h
    cases h
    rfl
  | succ m ih =>
    intro off l h
    simp only [readEntries] at h
    cases he : readEntry buf off with
    | none => rw [he] at h; cases h
    | some e =>
      rw [he] at h
      cases hr : readEntries buf (off + 16) m with
      | none => rw [hr] at h; cases h
      | some rest =>
        rw [hr] at h
        cases h
        simp [ih (off + 16) rest hr]

theorem jsMapGet_set (m : List (List Nat × Lump)) (k k2 : List Nat) (v : Lump) :
    jsMapGet (jsMapSet m k v) k2 =
      if k = k2 then some v else jsMapGet m k2 := by
  induction m with
  | nil =>
    by_cases h : k = k2
    · subst h; simp [jsMapSet, jsMapGet]
    · simp [jsMapSet, jsMapGet, List.find?_cons_of_neg, h]
  | cons p rest ih =>
    obtain ⟨k0, v0⟩ := p
    by_cases h0 : k0 = k
    · subst h0
      by_cases h : k0 = k2
      · subst h; simp [jsMapSet, jsMapGet]
      · simp [jsMapSet, jsMapGet, h]
    · have hs : jsMapSet ((k0, v0) :: rest) k v = (k0, v0) :: jsMapSet rest k v := by
        simp [jsMapSet, h0]
      rw [hs]
      by_cases h : k0 = k2
      · subst h
        have hk : ¬ k = k0 := fun hq => h0 hq.symm
        simp [jsMapGet, if_neg hk]
      · have e1 : jsMapGet ((k0, v0) :: jsMapSet rest k v) k2 =
            jsMapGet (jsMapSet rest k v) k2 := by
          simp [jsMapGet, h]
        have e2 : jsMapGet ((k0, v0) :: rest) k2 = jsMapGet rest k2 := by
          simp [jsMapGet, h]
        rw [e1, ih, e2]

theorem buildLumpMap_get (lumps : List Lump) (k : List Nat) :
    ∀ (m : List (List Nat × Lump)),
      jsMapGet (lumps.foldl (fun m l => jsMapSet m l.name l) m) k =
        (lumps.reverse.find? (fun l => l.name == k)).or (jsMapGet m k) := by
  induction lumps with
  | nil => intro m; simp
  | cons l t ih =>
    intro m
    simp only [List.foldl_cons, List.reverse_cons]
    rw [ih, List.find?_append]
    cases hf : t.reverse.find? (fun l => l.name == k) with
    | some x => simp
    | none =>
      simp only [Option.none_or]
      rw [jsMapGet_set]
      by_cases h : l.name = k
      · simp [h]
      · have hb : (l.name == k) = false := by simp [h]
        simp [hb, h]

/-! ### Claim C2 -/

/-- A 44-byte container whose directory holds two entries both named
"A" (byte 65): entry one at offset 100 with size 1, entry two at
offset 200 with size 2. -/
def dupNameBuf : List Nat :=
  [73, 87, 65, 68, 2, 0, 0, 0, 12, 0, 0, 0,
   100, 0, 0, 0, 1, 0, 0, 0, 65, 0, 0, 0, 0, 0, 0, 0,
   200, 0, 0, 0, 2, 0, 0, 0, 65, 0, 0, 0, 0, 0, 0, 0]

/-- C2 counterexample: on a directory with two entries named "A", the
name lookup (`getLump`) returns the second (last) entry, not the first:
`Map.set` overwrites the earlier binding during the directory loop. -/
theorem getLump_duplicate_counterexample :
    (parse dupNameBuf).map (fun st => st.lumps) =
      some [⟨[65], 100, 1⟩, ⟨[65], 200, 2⟩] ∧
    (parse dupNameBuf).bind (fun st => getLump st [65]) = some ⟨[65], 200, 2⟩ ∧
    (⟨[65], 200, 2⟩ : Lump) ≠ ⟨[65], 100, 1⟩ :=
  ⟨by decide, by decide, by decide⟩

/-- C2 amended: `getLump` returns the LAST directory entry bearing the
requested name (because `Map.set` overwrites on duplicate keys); earlier
entries with the same name are reachable only by positional scanning of
`lumps`. -/
theorem getLump_last_match (lumps : List Lump) (name : List Nat) :
    jsMapGet (buildLumpMap lumps) name =
      lumps.reverse.find? (fun l => l.name == name) := by
  rw [buildLumpMap, buildLumpMap_get]
  simp [jsMapGet]

/-! ### Claim C4 -/

/-- A 28-byte container accepted by `parse` whose single directory entry
claims byte range [1000, 1050), far outside the buffer. -/
def badRangeBuf : List Nat :=
  [73, 87, 65, 68, 1, 0, 0, 0, 12, 0, 0, 0,
   232, 3, 0, 0, 50, 0, 0, 0, 65, 0, 0, 0, 0, 0, 0, 0]

/-- C4 counterexample: `parse` accepts a container holding a directory
entry with offset 1000 and length 50 although the buffer is only 28
bytes long — entry byte ranges are never validated against the buffer. -/
theorem parse_range_counterexample :
    (parse badRangeBuf).map (fun st => st.lumps) = some [⟨[65], 1000, 50⟩] ∧
    (badRangeBuf.length : Int) < 1000 + 50 :=
  ⟨by decide, by decide⟩

/-- C4 amended: for every container accepted by the parser, the parsed
directory's length equals the header's lump count clamped to zero (the
signed count read from the header; a negative count yields an empty
directory); the (offset, length) byte ranges of directory entries are
not validated and may lie outside the input buffer. -/
theorem parse_lumpCount (buf : List Nat) (st : ParserState)
    (h : parse buf = some st) : st.lumps.length = st.numLumps.toNat := by
  unfold parse at h
  cases hh : readString buf 0 4 with
  | none => rw [hh] at h; simp [bind, Option.bind] at h
  | some header =>
    rw [hh] at h
    simp only [bind, Option.bind] at h
    by_cases htag : header = iwadTag ∨ header = pwadTag
    · rw [if_pos htag] at h
      cases hn : getInt32 buf 4 with
      | none => rw [hn] at h; simp at h
      | some numLumps =>
        rw [hn] at h
        simp only at h
        cases hd : getInt32 buf 8 with
        | none => rw [hd] at h; simp at h
        | some dirOff =>
          rw [hd] at h
          simp only at h
          cases hl : readEntries buf dirOff numLumps.toNat with
          | none => rw [hl] at h; simp at h
          | some lumps =>
            rw [hl] at h
            simp only [pure, Option.some.injEq] at h
            subst h
            exact readEntries_length buf _ _ _ hl
    · rw [if_neg htag] at h; simp at h

def badRangeState : ParserState :=
  ⟨1, 12, [⟨[65], 1000, 50⟩], [([65], ⟨[65], 1000, 50⟩)]⟩

/-- C4 amended witness: `parse` accepts `badRangeBuf` and the directory
length equals the header count. -/
theorem parse_lumpCount_witness :
    parse badRangeBuf = some badRangeState ∧
    badRangeState.lumps.length = badRangeState.numLumps.toNat :=
  ⟨by decide, parse_lumpCount badRangeBuf badRangeState (by decide)⟩

/-! ### Map records (`wadParser.js`) and wall building (`mapRenderer.js`) -/

/-- A VERTEXES record (`parseVertexes`). -/
structure Vertex where
  x : Int
  y : Int
deriving DecidableEq, Repr

/-- A SIDEDEFS record (`parseSidedefs`). -/
structure Sidedef where
  xOffset : Int
  yOffset : Int
  upperTexture : String
  lowerTexture : String
  middleTexture : String
  sector : Int
deriving DecidableEq, Repr

/-- A SECTORS record (`parseSectors`). -/
structure Sector where
  floorHeight : Int
  ceilingHeight : Int
  floorTexture : String
  ceilingTexture : String
  lightLevel : Int
  special : Int
  tag : Int
deriving DecidableEq, Repr

/-- A LINEDEFS record (`parseLinedefs`): note the value at record byte
offset 6 — the linedef's special/type id — is stored under the name
`lineType`. -/
structure Linedef where
  startVertex : Int
  endVertex : Int
  flags : Int
  lineType : Int
  sectorTag : Int
  frontSidedef : Int
  backSidedef : Int
deriving DecidableEq, Repr

/-- JavaScript array indexing `arr[i]` with a signed index: `undefined`
(here `none`) when out of range. -/
def jsIndex {α : Type} (l : List α) (i : Int) : Option α :=
  if 0 ≤ i then l.get? i.toNat else none

/-- The property access `linedef.special` in `buildWalls`.  A parsed
linedef object has no `special` property (`parseLinedefs` names that
field `lineType`), so the access evaluates to `undefined`. -/
def Linedef.special (_ : Linedef) : Option Int := none

/-- The door-type special ids enumerated in `buildWalls`. -/
def doorTypes : List Int := [1, 26, 27, 28, 29, 31, 32, 33, 34, 46, 117, 118, 119]

/-- `Array.prototype.includes` applied to a possibly-`undefined`
argument: `undefined` is never equal (SameValueZero) to any number in
the list. -/
def jsIncludes (xs : List Int) (v : Option Int) : Bool :=
  match v with
  | none => false
  | some n => xs.contains n

/-- A `collisionLines` element.  Solid-wall pushes omit the `isDoor`,
`special` and `linedefIndex` properties; reading an absent property
yields `undefined`, which is falsy, so an absent `isDoor` is modelled as
`false` and the absent number fields as `none`. -/
structure CollisionLine where
  x1 : Int
  y1 : Int
  x2 : Int
  y2 : Int
  isDoor : Bool
  special : Option Int
  linedefIndex : Option Nat
deriving DecidableEq, Repr

/-- The body of one `buildWalls` loop iteration, restricted to its
collision-line effect (the `createWall` calls only emit render
geometry).  `none` models a thrown `TypeError` (a `.sector` access on an
`undefined` sidedef); `some []` a `continue` or a falsy-sector skip. -/
def processLinedef (sidedefs : List Sidedef) (sectors : List Sector)
    (vertexes : List Vertex) (i : Nat) (ld : Linedef) : Option (List CollisionLine) :=
  match jsIndex vertexes ld.startVertex, jsIndex vertexes ld.endVertex with
  | some v1, some v2 =>
    let isTwoSided := ld.backSidedef ≠ -1
    if ld.frontSidedef ≠ -1 then
      match jsIndex sidedefs ld.frontSidedef with
      | none => none
      | some sd =>
        match jsIndex sectors sd.sector with
        | none => some []
        | some _ =>
          if isTwoSided then
            match jsIndex sidedefs ld.backSidedef with
            | none => none
            | some bsd =>
              match jsIndex sectors bsd.sector with
              | none => some []
              | some _ =>
                if jsIncludes doorTypes ld.special then
                  some [⟨v1.x, v1.y, v2.x, v2.y, true, ld.special, some i⟩]
                else some []
          else
            some [⟨v1.x, v1.y, v2.x, v2.y, false, none, none⟩]
    else some []
  | _, _ => some []

def buildWallsAux (sidedefs : List Sidedef) (sectors : List Sector)
    (vertexes : List Vertex) : List Linedef → Nat → Option (List CollisionLine)
  | [], _ => some []
  | ld :: rest, i => do
      let ls ← processLinedef sidedefs sectors vertexes i ld
      let restLines ← buildWallsAux sidedefs sectors vertexes rest (i + 1)
      pure (ls ++ restLines)

/-- `MapRenderer.buildWalls`, restricted to the `collisionLines` it
accumulates. -/
def buildWalls (linedefs : List Linedef) (sidedefs : List Sidedef)
    (vertexes : List Vertex) (sectors : List Sector) : Option (List CollisionLine) :=
  buildWallsAux sidedefs sectors vertexes linedefs 0

/-! ### Claim C1 -/

/-- A minimal map holding one two-sided linedef whose special id
(`lineType`) is 1, the first entry of the door-type set, with both
sidedefs resolving to the single sector. -/
def doorMapLinedefs : List Linedef := [⟨0, 1, 4, 1, 0, 0, 1⟩]

def doorMapSidedefs : List Sidedef :=
  [⟨0, 0, "-", "-", "-", 0⟩, ⟨0, 0, "-", "-", "-", 0⟩]

def doorMapVertexes : List Vertex := [⟨0, 0⟩, ⟨64, 0⟩]

def doorMapSectors : List Sector := [⟨0, 128, "FLAT1", "FLAT1", 160, 0, 0⟩]

/-- C1: a two-sided linedef with special id 1 (a door type, with both
sectors resolvable) produces NO CollisionLine: `buildWalls` tests
`doorTypes.includes(linedef.special)`, but the parser stores the
linedef's special id under `lineType` and never sets `special`, so the
membership test is against `undefined` and fails for every linedef —
no door collision line is ever emitted, contradicting the adjacent
comment "Add collision for doors (special types 1, 26-34, 46,
117-119)". -/
theorem buildWalls_door_bug :
    buildWalls doorMapLinedefs doorMapSidedefs doorMapVertexes doorMapSectors = some [] ∧
    doorTypes.contains (1 : Int) = true ∧
    ∀ ld : Linedef, jsIncludes doorTypes (Linedef.special ld) = false :=
  ⟨by decide, by decide, fun _ => rfl⟩

/-! ### Point location (`game.js`: `pointInPolygon`, `getCurrentSector`) -/

/-- A 2D point of a floor-sector polygon. -/
structure PointQ where
  x : ℚ
  y : ℚ
deriving DecidableEq, Repr

/-- A `floorSectors` entry as stored by `buildFloorsAndCeilings`
(polygon points, floor and ceiling heights).  Every stored polygon has
at least 3 points (shorter ones are skipped before storing). -/
structure FloorRegion where
  sectorIndex : Nat
  polygon : List PointQ
  floorHeight : ℚ
  ceilingHeight : ℚ
deriving DecidableEq, Repr

/-- The object `getCurrentSector` returns. -/
structure SectorInfo where
  floorHeight : ℚ
  ceilingHeight : ℚ
  sectorIndex : Nat
deriving DecidableEq, Repr

def mkSectorInfo (s : FloorRegion) : SectorInfo :=
  ⟨s.floorHeight, s.ceilingHeight, s.sectorIndex⟩

/-- `Game.pointInPolygon`: even-odd ray casting.  The loop runs `i` from
0 with `j` trailing (`j = n-1` initially, afterwards `j = i-1`).  The
division is only evaluated under `(yi > y) !== (yj > y)`, which forces
`yj - yi ≠ 0`. -/
def pointInPolygon (x y : ℚ) (polygon : List PointQ) : Bool :=
  (List.range polygon.length).foldl
    (fun inside i =>
      let j := if i = 0 then polygon.length - 1 else i - 1
      let pi := polygon.getD i ⟨0, 0⟩
      let pj := polygon.getD j ⟨0, 0⟩
      let intersect := (decide (pi.y > y) != decide (pj.y > y)) &&
        decide (x < (pj.x - pi.x) * (y - pi.y) / (pj.y - pi.y) + pi.x)
      if intersect then !inside else inside)
    false

/-- Polygon centroid as computed in the `getCurrentSector` fallback
(arithmetic mean of the boundary points). -/
def centroid (polygon : List PointQ) : ℚ × ℚ :=
  ((polygon.map (fun p => p.x)).sum / polygon.length,
   (polygon.map (fun p => p.y)).sum / polygon.length)

/-- Squared Euclidean distance.  The source compares
`Math.sqrt((x-cx)**2 + (y-cy)**2)` values; the square root is strictly
monotone on nonnegative reals, so every comparison made by the fallback
loop has the same outcome on the squared distances, which keeps the
model exact over ℚ. -/
def distSq (x y cx cy : ℚ) : ℚ := (x - cx) ^ 2 + (y - cy) ^ 2

/-- One iteration of the nearest-centroid fallback loop.  The
accumulator `none` is the initial `minDist = Infinity, nearestSector =
null` state; every finite distance compares below `Infinity` (ℚ
distances are never `NaN`). -/
def nearestStep (x y : ℚ) (acc : Option (ℚ × SectorInfo)) (s : FloorRegion) :
    Option (ℚ × SectorInfo) :=
  let c := centroid s.polygon
  let d := distSq x y c.1 c.2
  match acc with
  | none => some (d, mkSectorInfo s)
  | some (m, b) => if d < m then some (d, mkSectorInfo s) else some (m, b)

/-- The fallback scan of `getCurrentSector`. -/
def nearestSector (fs : List FloorRegion) (x y : ℚ) : Option SectorInfo :=
  (fs.foldl (nearestStep x y) none).map (fun p => p.2)

/-- `Game.getCurrentSector` as a function of the query point (the
source reads `x = position.x`, `y = -position.z` from the player). -/
def getCurrentSector (fs : List FloorRegion) (x y : ℚ) : Option SectorInfo :=
  match fs.find? (fun s => pointInPolygon x y s.polygon) with
  | some s => some (mkSectorInfo s)
  | none => nearestSector fs x y

theorem nearestFold_spec (x y : ℚ) :
    ∀ (l : List FloorRegion) (m : ℚ) (b : SectorInfo),
      ∃ m2 b2, l.foldl (nearestStep x y) (some (m, b)) = some (m2, b2) ∧
        m2 ≤ m ∧
        (∀ t ∈ l, m2 ≤ distSq x y (centroid t.polygon).1 (centroid t.polygon).2) ∧
        ((m2 = m ∧ b2 = b) ∨
          ∃ s ∈ l, b2 = mkSectorInfo s ∧
            m2 = distSq x y (centroid s.polygon).1 (centroid s.polygon).2) := by
  intro l
  induction l with
  | nil =>
    intro m b
    exact ⟨m, b, rfl, le_refl m, by simp, Or.inl ⟨rfl, rfl⟩⟩
  | cons s t ih =>
    intro m b
    by_cases hd : distSq x y (centroid s.polygon).1 (centroid s.polygon).2 < m
    · have hstep : nearestStep x y (some (m, b)) s =
          some (distSq x y (centroid s.polygon).1 (centroid s.polygon).2, mkSectorInfo s) := by
        simp [nearestStep, hd]
      obtain ⟨m2, b2, heq, hle, hall, horig⟩ :=
        ih (distSq x y (centroid s.polygon).1 (centroid s.polygon).2) (mkSectorInfo s)
      refine ⟨m2, b2, ?_, ?_, ?_, ?_⟩
      · simpa [hstep] using heq
      · exact le_trans hle (le_of_lt hd)
      · intro u hu
        rcases List.mem_cons.mp hu with h | h
        · subst h; exact hle
        · exact hall u h
      · rcases horig with ⟨hm, hb⟩ | ⟨s2, hs2, hb, hm⟩
        · exact Or.inr ⟨s, List.mem_cons_self s t, hb, hm⟩
        · exact Or.inr ⟨s2, List.mem_cons_of_mem s hs2, hb, hm⟩
    · have hstep : nearestStep x y (some (m, b)) s = some (m, b) := by
        simp [nearestStep, hd]
      obtain ⟨m2, b2, heq, hle, hall, horig⟩ := ih m b
      refine ⟨m2, b2, ?_, hle, ?_, ?_⟩
      · simpa [hstep] using heq
      · intro u hu
        rcases List.mem_cons.mp hu with h | h
        · subst h; exact le_trans hle (not_lt.mp hd)
        · exact hall u h
      · rcases horig with ⟨hm, hb⟩ | ⟨s2, hs2, hb, hm⟩
        · exact Or.inl ⟨hm, hb⟩
        · exact Or.inr ⟨s2, List.mem_cons_of_mem s hs2, hb, hm⟩

/-! ### Claim C5 -/

/-- C5: with at least one FloorRegion stored, `getCurrentSector` never
returns `null`: if the even-odd ray-casting test matches some region,
the first match in insertion order is returned; otherwise the region
whose polygon centroid is nearest the query point (by Euclidean
distance, here compared through its square) is returned. -/
theorem getCurrentSector_spec (fs : List FloorRegion) (x y : ℚ)
    (hne : fs ≠ []) :
    ∃ r, getCurrentSector fs x y = some r ∧
      (∀ s, fs.find? (fun s => pointInPolygon x y s.polygon) = some s →
        r = mkSectorInfo s) ∧
      (fs.find? (fun s => pointInPolygon x y s.polygon) = none →
        ∃ s ∈ fs, r = mkSectorInfo s ∧
          ∀ t ∈ fs, distSq x y (centroid s.polygon).1 (centroid s.polygon).2 ≤
            distSq x y (centroid t.polygon).1 (centroid t.polygon).2) := by
  cases hf : fs.find? (fun s => pointInPolygon x y s.polygon) with
  | some s =>
    refine ⟨mkSectorInfo s, ?_, ?_, ?_⟩
    · simp [getCurrentSector, hf]
    · intro s2 hs2
      cases hs2
      rfl
    · intro hnone; cases hnone
  | none =>
    cases fs with
    | nil => exact absurd rfl hne
    | cons s0 rest =>
      have hstep0 : nearestStep x y none s0 =
          some (distSq x y (centroid s0.polygon).1 (centroid s0.polygon).2,
            mkSectorInfo s0) := rfl
      obtain ⟨m2, b2, heq, hle, hall, horig⟩ :=
        nearestFold_spec x y rest
          (distSq x y (centroid s0.polygon).1 (centroid s0.polygon).2)
          (mkSectorInfo s0)
      have hres : getCurrentSector (s0 :: rest) x y = some b2 := by
        simp [getCurrentSector, hf, nearestSector, List.foldl_cons, hstep0, heq]
      refine ⟨b2, hres, ?_, ?_⟩
      · intro s2 hs2; cases hs2
      · intro _
        have hmin : ∀ t ∈ s0 :: rest,
            m2 ≤ distSq x y (centroid t.polygon).1 (centroid t.polygon).2 := by
          intro u hu
          rcases List.mem_cons.mp hu with h | h
          · subst h; exact hle
          · exact hall u h
        rcases horig with ⟨hm, hb⟩ | ⟨s2, hs2, hb, hm⟩
        · refine ⟨s0, List.mem_cons_self s0 rest, hb, ?_⟩
          intro t ht
          rw [← hm]
          exact hmin t ht
        · refine ⟨s2, List.mem_cons_of_mem s0 hs2, hb, ?_⟩
          intro t ht
          rw [← hm]
          exact hmin t ht

/-- C5 witness: the single unit-square region from §8 of the spec; the
query point (200, 200) lies outside it and falls back to it. -/
def squareRegion : FloorRegion :=
  ⟨0, [⟨0, 0⟩, ⟨100, 0⟩, ⟨100, 100⟩, ⟨0, 100⟩], 0, 128⟩

theorem getCurrentSector_spec_witness :
    [squareRegion] ≠ [] ∧
    ∃ r, getCurrentSector [squareRegion] 200 200 = some r ∧
      (∀ s, [squareRegion].find? (fun s => pointInPolygon 200 200 s.polygon) = some s →
        r = mkSectorInfo s) ∧
      ([squareRegion].find? (fun s => pointInPolygon 200 200 s.polygon) = none →
        ∃ s ∈ [squareRegion], r = mkSectorInfo s ∧
          ∀ t ∈ [squareRegion],
            distSq 200 200 (centroid s.polygon).1 (centroid s.polygon).2 ≤
              distSq 200 200 (centroid t.polygon).1 (centroid t.polygon).2) :=
  ⟨by simp, getCurrentSector_spec [squareRegion] 200 200 (by simp)⟩

/-! ### Vertical movement (`game.js`: `updatePlayerHeight`) -/

/-- The player state fields `updatePlayerHeight` touches, plus the
horizontal position it queries point-location with. -/
structure PlayerV where
  x : ℚ
  z : ℚ
  y : ℚ
  verticalVelocity : ℚ
  onGround : Bool
deriving DecidableEq, Repr

/-- `this.player.height`: set to 41 at construction and never
reassigned. -/
def playerHeight : ℚ := 41

/-- `Game.findNearestSector` simply delegates to `getCurrentSector`. -/
def findNearestSector (fs : List FloorRegion) (x y : ℚ) : Option SectorInfo :=
  getCurrentSector fs x y

/-- `Game.updatePlayerHeight`.  `mapLoaded` models the `this.mapData`
truthiness guard.  The queried sector comes from `getCurrentSector` at
`(position.x, -position.z)`. -/
def updatePlayerHeight (mapLoaded : Bool) (fs : List FloorRegion) (p : PlayerV) : PlayerV :=
  if !mapLoaded then p
  else
    match getCurrentSector fs p.x (-p.z) with
    | none =>
      match findNearestSector fs p.x (-p.z) with
      | none => p
      | some ns =>
        let minY := ns.floorHeight + playerHeight
        if p.y < minY then { p with y := minY, onGround := true } else p
    | some s =>
      let floorHeight := s.floorHeight
      let ceilingHeight := s.ceilingHeight
      let maxStepHeight : ℚ := 24
      let currentFloorHeight := p.y - playerHeight
      let heightDiff := floorHeight - currentFloorHeight
      let minHeadRoom : ℚ := 56
      if ceilingHeight - floorHeight < minHeadRoom then p
      else
        let p1 :=
          if |heightDiff| ≤ maxStepHeight then
            let targetY := floorHeight + playerHeight
            if targetY ≤ ceilingHeight then
              { p with y := targetY, onGround := true, verticalVelocity := 0 }
            else p
          else if heightDiff < 0 then { p with onGround := false }
          else p
        let minY := floorHeight + playerHeight
        if p1.y < minY then { p1 with y := minY, verticalVelocity := 0, onGround := true }
        else p1

/-! ### Claim C6 -/

/-- C6: when the resolved region passes the 56-unit headroom check, a
floor-height difference of at most the 24-unit step threshold snaps the
player to the new floor, sets Grounded and zeroes vertical velocity,
while a downward difference larger than 24 units clears Grounded and
leaves height and velocity untouched (gravity takes over; no downward
snap). -/
theorem updatePlayerHeight_step_rule (fs : List FloorRegion) (p : PlayerV)
    (s : SectorInfo) (hsec : getCurrentSector fs p.x (-p.z) = some s)
    (hgap : 56 ≤ s.ceilingHeight - s.floorHeight) :
    (|s.floorHeight - (p.y - playerHeight)| ≤ 24 →
      updatePlayerHeight true fs p =
        { p with y := s.floorHeight + playerHeight, onGround := true,
                 verticalVelocity := 0 }) ∧
    (s.floorHeight - (p.y - playerHeight) < -24 →
      updatePlayerHeight true fs p = { p with onGround := false }) := by
  have hhead : ¬ s.ceilingHeight - s.floorHeight < 56 := not_lt.mpr hgap
  constructor
  · intro hstep
    have htarget : s.floorHeight + playerHeight ≤ s.ceilingHeight := by
      rw [playerHeight]; linarith
    have hsafe : ¬ s.floorHeight + playerHeight < s.floorHeight + playerHeight :=
      lt_irrefl _
    simp only [updatePlayerHeight, Bool.not_true, Bool.false_eq_true, if_false, hsec,
      if_neg hhead, if_pos hstep, if_pos htarget]
    simp [hsafe]
  · intro hfall
    have hstep : ¬ |s.floorHeight - (p.y - playerHeight)| ≤ 24 := by
      rw [abs_le]; intro ⟨h1, _⟩; linarith
    have hneg : s.floorHeight - (p.y - playerHeight) < 0 := by linarith
    have hsafe : ¬ p.y < s.floorHeight + playerHeight := by
      intro hlt; linarith
    simp only [updatePlayerHeight, Bool.not_true, Bool.false_eq_true, if_false, hsec,
      if_neg hhead, if_neg hstep, if_pos hneg]
    simp [hsafe]

/-- C6 witness: a player standing 16 units above the square region's
floor snaps down to it, staying Grounded with zeroed velocity. -/
theorem updatePlayerHeight_step_rule_witness :
    getCurrentSector [squareRegion] (50 : ℚ) (-(-50 : ℚ)) = some ⟨0, 128, 0⟩ ∧
    |(⟨0, 128, 0⟩ : SectorInfo).floorHeight -
      ((⟨50, -50, 57, 5, false⟩ : PlayerV).y - playerHeight)| ≤ 24 ∧
    updatePlayerHeight true [squareRegion] ⟨50, -50, 57, 5, false⟩ =
      { (⟨50, -50, 57, 5, false⟩ : PlayerV) with
          y := (⟨0, 128, 0⟩ : SectorInfo).floorHeight + playerHeight,
          onGround := true, verticalVelocity := 0 } :=
  ⟨by norm_num [getCurrentSector, squareRegion, mkSectorInfo, pointInPolygon, List.range_succ],
   by norm_num [playerHeight],
    (updatePlayerHeight_step_rule [squareRegion] ⟨50, -50, 57, 5, false⟩ ⟨0, 128, 0⟩
      (by norm_num [getCurrentSector, squareRegion, mkSectorInfo, pointInPolygon,
        List.range_succ])
      (by norm_num)).1 (by norm_num [playerHeight])⟩

/-! ### Horizontal movement (`game.js`: `movePlayer`, `checkCollision`) -/

/-- A collision line as consumed by `checkCollision` (coordinates are
plain numbers copied from the renderer). -/
structure CLine where
  x1 : ℚ
  y1 : ℚ
  x2 : ℚ
  y2 : ℚ
deriving DecidableEq, Repr

/-- `Game.circleLineCollision`: squared distance from the circle center
to the clamped projection onto the segment, compared to `radius²`. -/
def circleLineCollision (cx cy radius x1 y1 x2 y2 : ℚ) : Bool :=
  let dx := x2 - x1
  let dy := y2 - y1
  let length2 := dx * dx + dy * dy
  if length2 = 0 then
    decide ((cx - x1) * (cx - x1) + (cy - y1) * (cy - y1) < radius * radius)
  else
    let t := ((cx - x1) * dx + (cy - y1) * dy) / length2
    let tc := max 0 (min 1 t)
    let closestX := x1 + tc * dx
    let closestY := y1 + tc * dy
    decide ((cx - closestX) * (cx - closestX) + (cy - closestY) * (cy - closestY) <
      radius * radius)

/-- `Game.checkCollision` at a candidate position `(x, _, z)`: tests the
circle at `(x, -z)` against every collision line. -/
def checkCollision (lines : List CLine) (radius x z : ℚ) : Bool :=
  lines.any (fun l => circleLineCollision x (-z) radius l.x1 l.y1 l.x2 l.y2)

/-- The horizontal part of `Game.movePlayer` (the trailing
`updatePlayerHeight()` call only adjusts vertical state).  Note the
Z-only retry starts from `this.player.position`, which the X-only retry
may already have updated. -/
def movePlayerXZ (lines : List CLine) (radius px pz mx mz : ℚ) : ℚ × ℚ :=
  let nx := px + mx
  let nz := pz + mz
  if !(checkCollision lines radius nx nz) then (nx, nz)
  else
    let pos1 := if !(checkCollision lines radius (px + mx) pz) then (px + mx, pz)
                else (px, pz)
    let pos2 := if !(checkCollision lines radius pos1.1 (pos1.2 + mz)) then
                  (pos1.1, pos1.2 + mz)
                else pos1
    pos2

/-! ### Claim C7 -/

/-- C7 counterexample: a zero-length wall at (40, -40), player radius
16, starting at the origin with displacement (40, 40).  The full move is
blocked while BOTH independent axis tests from the pre-move position are
unobstructed, yet the resolver ends at (40, 0): the Z retry is tested
from the already-X-shifted position (whose Z target is the blocked full
target), not from the pre-move position, so the Z component is dropped. -/
theorem movePlayer_axis_counterexample :
    checkCollision [⟨40, -40, 40, -40⟩] 16 (0 + 40) (0 + 40) = true ∧
    checkCollision [⟨40, -40, 40, -40⟩] 16 (0 + 40) 0 = false ∧
    checkCollision [⟨40, -40, 40, -40⟩] 16 0 (0 + 40) = false ∧
    movePlayerXZ [⟨40, -40, 40, -40⟩] 16 0 0 40 40 = (40, 0) ∧
    ((40 : ℚ), (0 : ℚ)) ≠ ((40 : ℚ), (40 : ℚ)) :=
  ⟨by norm_num [checkCollision, circleLineCollision],
   by norm_num [checkCollision, circleLineCollision],
   by norm_num [checkCollision, circleLineCollision],
   by norm_num [movePlayerXZ, checkCollision, circleLineCollision],
   by norm_num⟩

/-- C7 amended: when the full displacement is blocked, the X component
is tested from the pre-move position and applied if unobstructed; the Z
component is then tested from the resulting position — so when the X
component was applied, the Z test re-tests the blocked full target and
the Z component is never also applied.  Equivalently: the result applies
the X component alone if its pre-move test is free, otherwise the Z
component alone if its pre-move test is free, otherwise neither. -/
theorem movePlayer_blocked_cases (lines : List CLine) (radius px pz mx mz : ℚ)
    (hb : checkCollision lines radius (px + mx) (pz + mz) = true) :
    movePlayerXZ lines radius px pz mx mz =
      if checkCollision lines radius (px + mx) pz = false then (px + mx, pz)
      else if checkCollision lines radius px (pz + mz) = false then (px, pz + mz)
      else (px, pz) := by
  by_cases hx : checkCollision lines radius (px + mx) pz = false
  · simp [movePlayerXZ, hb, hx]
  · by_cases hz : checkCollision lines radius px (pz + mz) = false
    · simp [movePlayerXZ, hb, hx, hz]
    · simp [movePlayerXZ, hb, hx, hz]

/-- C7 amended witness: full move and X-only blocked, Z-only free — the
resolver slides along Z alone. -/
theorem movePlayer_blocked_cases_witness :
    checkCollision [⟨40, -40, 40, -40⟩, ⟨40, 0, 40, 0⟩] 16 (0 + 40) (0 + 40) = true ∧
    movePlayerXZ [⟨40, -40, 40, -40⟩, ⟨40, 0, 40, 0⟩] 16 0 0 40 40 = (0, 40) :=
  ⟨by norm_num [checkCollision, circleLineCollision],
    (movePlayer_blocked_cases [⟨40, -40, 40, -40⟩, ⟨40, 0, 40, 0⟩] 16 0 0 40 40
      (by norm_num [checkCollision, circleLineCollision])).trans
      (by norm_num [checkCollision, circleLineCollision])⟩

/-! ### Sector polygon chaining (`mapRenderer.js`: `getSectorPolygon`) -/

/-- An entry of the `sectorLines` list: a linedef referencing the
sector, with its index and traversal direction (front reference ⇒
forward, back reference ⇒ reverse). -/
structure SectorLine where
  linedef : Linedef
  index : Nat
  forward : Bool
deriving DecidableEq, Repr

/-- The start vertex index of a sector line per its direction. -/
def lineStartV (sl : SectorLine) : Int :=
  if sl.forward then sl.linedef.startVertex else sl.linedef.endVertex

/-- The end vertex index of a sector line per its direction. -/
def lineEndV (sl : SectorLine) : Int :=
  if sl.forward then sl.linedef.endVertex else sl.linedef.startVertex

def collectAux (sidedefs : List Sidedef) (sectorIndex : Int) :
    List Linedef → Nat → List SectorLine
  | [], _ => []
  | ld :: rest, i =>
    let front :=
      if ld.frontSidedef ≠ -1 then
        match jsIndex sidedefs ld.frontSidedef with
        | some sd => if sd.sector = sectorIndex then [⟨ld, i, true⟩] else []
        | none => []
      else []
    let back :=
      if ld.backSidedef ≠ -1 then
        match jsIndex sidedefs ld.backSidedef with
        | some sd => if sd.sector = sectorIndex then [⟨ld, i, false⟩] else []
        | none => []
      else []
    front ++ back ++ collectAux sidedefs sectorIndex rest (i + 1)

/-- The edge-collection loop of `getSectorPolygon` (the `if (sidedef &&
sidedef.sector === sectorIndex)` guards test truthiness before the
member access, so no access can throw here). -/
def collectSectorLines (linedefs : List Linedef) (sidedefs : List Sidedef)
    (sectorIndex : Int) : List SectorLine :=
  collectAux sidedefs sectorIndex linedefs 0

def findConnAux (used : List Nat) (curEnd : Int) :
    List SectorLine → Nat → Option (Nat × SectorLine)
  | [], _ => none
  | sl :: rest, i =>
    if i ∈ used then findConnAux used curEnd rest (i + 1)
    else if lineStartV sl = curEnd then some (i, sl)
    else findConnAux used curEnd rest (i + 1)

/-- The inner scan of the chaining loop: the first unused sector line
whose start vertex equals the chain's running end vertex. -/
def findConn (lines : List SectorLine) (used : List Nat) (curEnd : Int) :
    Option (Nat × SectorLine) :=
  findConnAux used curEnd lines 0

/-- The `while (used.size < sectorLines.length && iterations <
maxIterations)` chaining loop of `getSectorPolygon`.  The first argument
of the recursion is the remaining iteration budget
(`maxIterations - iterations`); the returned `Nat` is the number of
iterations the loop executed.  A found connection appends at most one
point (none when its start vertex is out of range) and advances; a
failed scan breaks after counting its iteration. -/
def chainLoop (vertexes : List Vertex) (lines : List SectorLine) :
    Nat → List Nat → Int → List Vertex → List Vertex × Nat
  | 0, _, _, points => (points, 0)
  | fuel + 1, used, curEnd, points =>
    if used.length < lines.length then
      match findConn lines used curEnd with
      | some (i, sl) =>
        let points2 :=
          match jsIndex vertexes (lineStartV sl) with
          | some v => points ++ [⟨v.x, v.y⟩]
          | none => points
        let r := chainLoop vertexes lines fuel (used ++ [i]) (lineEndV sl) points2
        (r.1, r.2 + 1)
      | none => (points, 1)
    else (points, 0)

/-- The chain-tracing part of `MapRenderer.getSectorPolygon`: collect
the sector's edges, seed the point list with the first edge's start
vertex, then run the bounded chaining loop.  Returns the traced points
together with the loop's iteration count. -/
def getSectorPolygonChain (linedefs : List Linedef) (sidedefs : List Sidedef)
    (vertexes : List Vertex) (sectorIndex : Int) : List Vertex × Nat :=
  let sectorLines := collectSectorLines linedefs sidedefs sectorIndex
  match sectorLines with
  | [] => ([], 0)
  | first :: _ =>
    match jsIndex vertexes (lineStartV first) with
    | none => ([], 0)
    | some sv =>
      chainLoop vertexes sectorLines (2 * sectorLines.length) [0] (lineEndV first)
        [⟨sv.x, sv.y⟩]

theorem chainLoop_bounds (vertexes : List Vertex) (lines : List SectorLine) :
    ∀ (fuel : Nat) (used : List Nat) (curEnd : Int) (points : List Vertex),
      (chainLoop vertexes lines fuel used curEnd points).2 ≤ fuel ∧
      (chainLoop vertexes lines fuel used curEnd points).1.length ≤
        points.length + (chainLoop vertexes lines fuel used curEnd points).2 := by
  intro fuel
  induction fuel with
  | zero => intro used curEnd points; simp [chainLoop]
  | succ n ih =>
    intro used curEnd points
    simp only [chainLoop]
    by_cases hg : used.length < lines.length
    · rw [if_pos hg]
      cases hf : findConn lines used curEnd with
      | none => simp
      | some pr =>
        obtain ⟨i, sl⟩ := pr
        cases hv : jsIndex vertexes (lineStartV sl) with
        | none =>
          simp only [hv]
          obtain ⟨h1, h2⟩ := ih (used ++ [i]) (lineEndV sl) points
          exact ⟨by omega, by omega⟩
        | some v =>
          simp only [hv]
          obtain ⟨h1, h2⟩ := ih (used ++ [i]) (lineEndV sl) (points ++ [⟨v.x, v.y⟩])
          refine ⟨by omega, ?_⟩
          have : (points ++ [(⟨v.x, v.y⟩ : Vertex)]).length = points.length + 1 := by
            simp
          omega
    · rw [if_neg hg]
      simp

/-! ### Claim C9 -/

/-- C9: for every set of edges collected for a region, the chaining loop
executes at most twice-the-edge-count iterations (its explicit
`maxIterations` budget) and appends at most one point per iteration
beyond the single seed point; the loop is a total function of the edge
set (it is structurally bounded by its budget). -/
theorem getSectorPolygon_chain_bounds (linedefs : List Linedef)
    (sidedefs : List Sidedef) (vertexes : List Vertex) (sectorIndex : Int) :
    (getSectorPolygonChain linedefs sidedefs vertexes sectorIndex).2 ≤
      2 * (collectSectorLines linedefs sidedefs sectorIndex).length ∧
    (getSectorPolygonChain linedefs sidedefs vertexes sectorIndex).1.length ≤
      1 + (getSectorPolygonChain linedefs sidedefs vertexes sectorIndex).2 := by
  unfold getSectorPolygonChain
  cases hsl : collectSectorLines linedefs sidedefs sectorIndex with
  | nil => simp
  | cons first rest =>
    cases hv : jsIndex vertexes (lineStartV first) with
    | none => simp [hv]
    | some sv =>
      simp only [hv]
      obtain ⟨h1, h2⟩ := chainLoop_bounds vertexes (first :: rest)
        (2 * (first :: rest).length) [0] (lineEndV first) [⟨sv.x, sv.y⟩]
      constructor
      · simpa using h1
      · simpa using h2

/-! ### Patch rendering (`wadParser.js`: `renderPatch`) -/

/-- The fields of a patch object as `getPatch` builds it and
`renderPatch` consumes it.  `getPatch` reads the dimensions as int16
(nonnegative for any decodable patch — a negative product would make the
`Uint8Array` allocation throw) and supplies exactly `width` column
offsets. -/
structure Patch where
  width : Nat
  height : Nat
  columnOffsets : List Int
  data : List Nat
deriving DecidableEq, Repr

/-- The per-column run-reading loop of `renderPatch`: each iteration
reads a row start (sentinel 255 ends the column) and a pixel count,
skips one padding byte, reads `count` palette-index bytes, and skips one
trailing padding byte, so the offset advances by `count + 4` per run.
A read past the data throws (`none`).  The fuel argument only bounds the
recursion: every iteration must successfully read a byte at a strictly
larger offset, so with budget `data.length + 1` the fuel can never be
exhausted before the sentinel or a failed read. -/
def decodeColumn (d : List Nat) : Int → Nat → Option (List (Nat × List Nat))
  | _, 0 => none
  | off, fuel + 1 => do
    let r ← getUint8 d off
    if r = 255 then pure []
    else do
      let c ← getUint8 d (off + 1)
      let idxs ← seqOpt (fun i => getUint8 d (off + 3 + i)) (List.range c)
      let rest ← decodeColumn d (off + 3 + c + 1) fuel
      pure ((r, idxs) :: rest)

/-- The RGBA pixel buffer, byte-indexed (`new Uint8Array(w*h*4)` filled
with 0). -/
def Pix : Type := Nat → Nat

def zeroPix : Pix := fun _ => 0

/-- The four assignments `pixels[o..o+3] = R, G, B, 255`. -/
def writePixel (o : Nat) (c : Nat × Nat × Nat) (buf : Pix) : Pix :=
  fun p =>
    if p = o then c.1
    else if p = o + 1 then c.2.1
    else if p = o + 2 then c.2.2
    else if p = o + 3 then 255
    else buf p

/-- The inner `for (let i = 0; i < pixelCount; i++)` loop of
`renderPatch`: pixel `i` of the run maps its palette index and is
written at row `rowStart + i` when that row is within the patch height
(`y >= 0` always holds for byte-valued row starts). -/
def writeIdx (palette : List (Nat × Nat × Nat)) (w h x rowStart : Nat) :
    List Nat → Nat → Pix → Pix
  | [], _, buf => buf
  | pIdx :: rest, i, buf =>
    let y := rowStart + i
    let buf2 :=
      if y < h then writePixel ((y * w + x) * 4) (palette.getD pIdx (0, 0, 0)) buf
      else buf
    writeIdx palette w h x rowStart rest (i + 1) buf2

def writeRun (palette : List (Nat × Nat × Nat)) (w h x : Nat)
    (run : Nat × List Nat) (buf : Pix) : Pix :=
  writeIdx palette w h x run.1 run.2 0 buf

/-- All runs of one column, in decode order (later runs overwrite). -/
def writeRuns (palette : List (Nat × Nat × Nat)) (w h x : Nat) :
    List (Nat × List Nat) → Pix → Pix
  | [], buf => buf
  | r :: rs, buf => writeRuns palette w h x rs (writeRun palette w h x r buf)

/-- The outer `for (let x = 0; x < patch.width; x++)` loop of
`renderPatch`. -/
def renderCols (pt : Patch) (palette : List (Nat × Nat × Nat)) :
    List Nat → Pix → Option Pix
  | [], buf => some buf
  | x :: rest, buf => do
      let runs ← decodeColumn pt.data (pt.columnOffsets.getD x 0) (pt.data.length + 1)
      renderCols pt palette rest (writeRuns palette pt.width pt.height x runs buf)

/-- The object `renderPatch` returns. -/
structure RenderedPatch where
  width : Nat
  height : Nat
  pixels : Pix

/-- `WADParser.renderPatch`: a zero-filled RGBA buffer of
`width*height` pixels, with every column's runs drawn into it. -/
def renderPatch (pt : Patch) (palette : List (Nat × Nat × Nat)) :
    Option RenderedPatch := do
  let buf ← renderCols pt palette (List.range pt.width) zeroPix
  pure ⟨pt.width, pt.height, buf⟩

/-- Run `r` covers row `y`. -/
def runCovers (r : Nat × List Nat) (y : Nat) : Prop :=
  r.1 ≤ y ∧ y < r.1 + r.2.length

theorem pixOffset_inj (w x x0 y y0 c c0 : Nat) (hx : x < w) (hx0 : x0 < w)
    (hc : c < 4) (hc0 : c0 < 4)
    (h : (y * w + x) * 4 + c = (y0 * w + x0) * 4 + c0) :
    x = x0 ∧ y = y0 ∧ c = c0 := by
  have hcc : c = c0 := by
    have h1 : ((y * w + x) * 4 + c) % 4 = c := by
      rw [Nat.add_comm, Nat.add_mul_mod_self_right]
      exact Nat.mod_eq_of_lt hc
    have h2 : ((y0 * w + x0) * 4 + c0) % 4 = c0 := by
      rw [Nat.add_comm, Nat.add_mul_mod_self_right]
      exact Nat.mod_eq_of_lt hc0
    rw [← h1, ← h2, h]
  subst hcc
  have hyx : y * w + x = y0 * w + x0 := by omega
  have hxx : x = x0 := by
    have h1 : (y * w + x) % w = x := by
      rw [Nat.add_comm, Nat.add_mul_mod_self_right]
      exact Nat.mod_eq_of_lt hx
    have h2 : (y0 * w + x0) % w = x0 := by
      rw [Nat.add_comm, Nat.add_mul_mod_self_right]
      exact Nat.mod_eq_of_lt hx0
    rw [← h1, ← h2, hyx]
  subst hxx
  have hw : 0 < w := Nat.lt_of_le_of_lt (Nat.zero_le x) hx
  refine ⟨rfl, ?_, rfl⟩
  have hmul : y * w = y0 * w := by omega
  exact Nat.eq_of_mul_eq_mul_right hw hmul

theorem writePixel_ne (o q : Nat) (c : Nat × Nat × Nat) (buf : Pix)
    (h0 : q ≠ o) (h1 : q ≠ o + 1) (h2 : q ≠ o + 2) (h3 : q ≠ o + 3) :
    writePixel o c buf q = buf q := by
  simp [writePixel, h0, h1, h2, h3]

theorem writeIdx_pres (palette : List (Nat × Nat × Nat)) (w h x rowStart : Nat) :
    ∀ (idxs : List Nat) (i0 : Nat) (buf : Pix) (q : Nat),
      (∀ i, i < idxs.length → rowStart + i0 + i < h →
        ∀ c, c < 4 → q ≠ ((rowStart + i0 + i) * w + x) * 4 + c) →
      writeIdx palette w h x rowStart idxs i0 buf q = buf q := by
  intro idxs
  induction idxs with
  | nil => intro i0 buf q _; rfl
  | cons pIdx rest ih =>
    intro i0 buf q hq
    have hshift : ∀ i, i < rest.length → rowStart + (i0 + 1) + i < h →
        ∀ c, c < 4 → q ≠ ((rowStart + (i0 + 1) + i) * w + x) * 4 + c := by
      intro i hi hyy c hc
      have heq : rowStart + (i0 + 1) + i = rowStart + i0 + (i + 1) := by omega
      rw [heq] at hyy ⊢
      exact hq (i + 1) (by simpa using Nat.succ_lt_succ hi) hyy c hc
    simp only [writeIdx]
    rw [ih (i0 + 1) _ q hshift]
    by_cases hy : rowStart + i0 < h
    · rw [if_pos hy]
      have h0 : q ≠ ((rowStart + i0) * w + x) * 4 := by
        simpa using hq 0 (by simp) (by omega) 0 (by omega)
      have h1 : q ≠ ((rowStart + i0) * w + x) * 4 + 1 := by
        simpa using hq 0 (by simp) (by omega) 1 (by omega)
      have h2 : q ≠ ((rowStart + i0) * w + x) * 4 + 2 := by
        simpa using hq 0 (by simp) (by omega) 2 (by omega)
      have h3 : q ≠ ((rowStart + i0) * w + x) * 4 + 3 := by
        simpa using hq 0 (by simp) (by omega) 3 (by omega)
      exact writePixel_ne _ _ _ _ h0 h1 h2 h3
    · rw [if_neg hy]

theorem writeIdx_hit (palette : List (Nat × Nat × Nat)) (w h x rowStart : Nat)
    (hx : x < w) (y0 : Nat) (hy : y0 < h) :
    ∀ (idxs : List Nat) (i0 j : Nat) (buf : Pix),
      j < idxs.length → rowStart + i0 + j = y0 →
      (writeIdx palette w h x rowStart idxs i0 buf ((y0 * w + x) * 4) =
          (palette.getD (idxs.getD j 0) (0, 0, 0)).1 ∧
        writeIdx palette w h x rowStart idxs i0 buf ((y0 * w + x) * 4 + 1) =
          (palette.getD (idxs.getD j 0) (0, 0, 0)).2.1 ∧
        writeIdx palette w h x rowStart idxs i0 buf ((y0 * w + x) * 4 + 2) =
          (palette.getD (idxs.getD j 0) (0, 0, 0)).2.2 ∧
        writeIdx palette w h x rowStart idxs i0 buf ((y0 * w + x) * 4 + 3) = 255) := by
  intro idxs
  induction idxs with
  | nil => intro i0 j buf hj; cases hj
  | cons pIdx rest ih =>
    intro i0 j buf hj hrow
    cases j with
    | succ j0 =>
      simp only [writeIdx]
      have hres := ih (i0 + 1) j0
        (if rowStart + i0 < h then
          writePixel (((rowStart + i0) * w + x) * 4) (palette.getD pIdx (0, 0, 0)) buf
        else buf)
        (by simpa using Nat.lt_of_succ_lt_succ hj) (by omega)
      simpa using hres
    | zero =>
      have hy0 : rowStart + i0 = y0 := by omega
      simp only [writeIdx, hy0, if_pos hy]
      have hpres : ∀ c, c < 4 →
          writeIdx palette w h x rowStart rest (i0 + 1)
            (writePixel ((y0 * w + x) * 4) (palette.getD pIdx (0, 0, 0)) buf)
            ((y0 * w + x) * 4 + c) =
          writePixel ((y0 * w + x) * 4) (palette.getD pIdx (0, 0, 0)) buf
            ((y0 * w + x) * 4 + c) := by
        intro c hc
        apply writeIdx_pres
        intro i hi hyy c2 hc2
        intro heq
        have := pixOffset_inj w x x (rowStart + (i0 + 1) + i) y0 c2 c hx hx hc2 hc
          heq.symm
        omega
      refine ⟨?_, ?_, ?_, ?_⟩
      · have := hpres 0 (by omega)
        simp only [Nat.add_zero] at this
        rw [this]
        simp [writePixel]
      · rw [hpres 1 (by omega)]
        have hne : (y0 * w + x) * 4 + 1 ≠ (y0 * w + x) * 4 := by omega
        simp [writePixel, hne]
      · rw [hpres 2 (by omega)]
        have hne0 : (y0 * w + x) * 4 + 2 ≠ (y0 * w + x) * 4 := by omega
        have hne1 : (y0 * w + x) * 4 + 2 ≠ (y0 * w + x) * 4 + 1 := by omega
        simp [writePixel, hne0, hne1]
      · rw [hpres 3 (by omega)]
        have hne0 : (y0 * w + x) * 4 + 3 ≠ (y0 * w + x) * 4 := by omega
        have hne1 : (y0 * w + x) * 4 + 3 ≠ (y0 * w + x) * 4 + 1 := by omega
        have hne2 : (y0 * w + x) * 4 + 3 ≠ (y0 * w + x) * 4 + 2 := by omega
        simp [writePixel, hne0, hne1, hne2]

theorem writeRuns_pres (palette : List (Nat × Nat × Nat)) (w h x : Nat) :
    ∀ (runs : List (Nat × List Nat)) (buf : Pix) (q : Nat),
      (∀ r ∈ runs, ∀ i, i < r.2.length → r.1 + i < h →
        ∀ c, c < 4 → q ≠ ((r.1 + i) * w + x) * 4 + c) →
      writeRuns palette w h x runs buf q = buf q := by
  intro runs
  induction runs with
  | nil => intro buf q _; rfl
  | cons r rs ih =>
    intro buf q hq
    simp only [writeRuns]
    rw [ih _ q (fun r2 hr2 => hq r2 (List.mem_cons_of_mem r hr2))]
    apply writeIdx_pres
    intro i hi hyy c hc
    have heq : r.1 + 0 + i = r.1 + i := by omega
    rw [heq] at hyy ⊢
    exact hq r (List.mem_cons_self r rs) i hi hyy c hc

theorem writeRuns_hit (palette : List (Nat × Nat × Nat)) (w h x : Nat)
    (hx : x < w) (y0 : Nat) (hy : y0 < h) :
    ∀ (runs : List (Nat × List Nat)) (buf : Pix),
      (∃ r ∈ runs, runCovers r y0) →
      writeRuns palette w h x runs buf ((y0 * w + x) * 4 + 3) = 255 ∧
      ∃ r ∈ runs, ∃ i, i < r.2.length ∧ r.1 + i = y0 ∧
        (writeRuns palette w h x runs buf ((y0 * w + x) * 4),
         writeRuns palette w h x runs buf ((y0 * w + x) * 4 + 1),
         writeRuns palette w h x runs buf ((y0 * w + x) * 4 + 2)) =
          palette.getD (r.2.getD i 0) (0, 0, 0) := by
  intro runs
  induction runs with
  | nil => intro buf hcov; rcases hcov with ⟨r, hr, _⟩; cases hr
  | cons r rs ih =>
    intro buf hcov
    by_cases hrs : ∃ r2 ∈ rs, runCovers r2 y0
    · simp only [writeRuns]
      obtain ⟨ha, r2, hr2, i, hi, hrow, hrgb⟩ := ih (writeRun palette w h x r buf) hrs
      exact ⟨ha, r2, List.mem_cons_of_mem r hr2, i, hi, hrow, hrgb⟩
    · have hr : runCovers r y0 := by
        rcases hcov with ⟨r2, hr2, hcov2⟩
        rcases List.mem_cons.mp hr2 with he | he
        · rwa [← he]
        · exact absurd ⟨r2, he, hcov2⟩ hrs
      obtain ⟨hle, hlt⟩ := hr
      have hhit := writeIdx_hit palette w h x r.1 hx y0 hy r.2 0 (y0 - r.1) buf
        (by omega) (by omega)
      have hpres : ∀ c, c < 4 →
          writeRuns palette w h x rs (writeRun palette w h x r buf)
            ((y0 * w + x) * 4 + c) =
          writeRun palette w h x r buf ((y0 * w + x) * 4 + c) := by
        intro c hc
        apply writeRuns_pres
        intro r2 hr2 i hi hyy c2 hc2 heq
        obtain ⟨_, hyeq, _⟩ :=
          pixOffset_inj w x x y0 (r2.1 + i) c c2 hx hx hc hc2 heq
        exact hrs ⟨r2, hr2, by omega, by omega⟩
      refine ⟨?_, r, List.mem_cons_self r rs, y0 - r.1, by omega, by omega, ?_⟩
      · simp only [writeRuns]
        rw [hpres 3 (by omega)]
        exact hhit.2.2.2
      · simp only [writeRuns]
        have hp0 : writeRuns palette w h x rs (writeRun palette w h x r buf)
            ((y0 * w + x) * 4) =
            writeRun palette w h x r buf ((y0 * w + x) * 4) := by
          have := hpres 0 (by omega)
          simpa using this
        rw [hp0, hpres 1 (by omega), hpres 2 (by omega)]
        have e0 := hhit.1
        have e1 := hhit.2.1
        have e2 := hhit.2.2.1
        simp only [writeRun]
        rw [e0, e1, e2]

theorem renderCols_pres (pt : Patch) (palette : List (Nat × Nat × Nat))
    (x0 y0 : Nat) (hx0 : x0 < pt.width) :
    ∀ (xs : List Nat) (buf buf2 : Pix),
      renderCols pt palette xs buf = some buf2 →
      (∀ x ∈ xs, x < pt.width) → x0 ∉ xs →
      ∀ c, c < 4 →
        buf2 ((y0 * pt.width + x0) * 4 + c) = buf ((y0 * pt.width + x0) * 4 + c) := by
  intro xs
  induction xs with
  | nil =>
    intro buf buf2 hr _ _ c hc
    simp only [renderCols, Option.some.injEq] at hr
    rw [← hr]
  | cons x rest ih =>
    intro buf buf2 hr hlt hnotin c hc
    simp only [renderCols, bind, Option.bind] at hr
    cases hruns : decodeColumn pt.data (pt.columnOffsets.getD x 0) (pt.data.length + 1) with
    | none => rw [hruns] at hr; simp at hr
    | some runs =>
      rw [hruns] at hr
      simp only at hr
      have hxlt : x < pt.width := hlt x (List.mem_cons_self x rest)
      have hxne : x ≠ x0 := fun he => hnotin (he ▸ List.mem_cons_self x rest)
      rw [ih _ buf2 hr (fun a ha => hlt a (List.mem_cons_of_mem x ha))
        (fun hmem => hnotin (List.mem_cons_of_mem x hmem)) c hc]
      apply writeRuns_pres
      intro r hr2 i hi hyy c2 hc2 heq
      obtain ⟨hxeq, _, _⟩ :=
        pixOffset_inj pt.width x0 x y0 (r.1 + i) c c2 hx0 hxlt hc hc2 heq
      exact hxne hxeq.symm

theorem renderCols_main (pt : Patch) (palette : List (Nat × Nat × Nat))
    (x0 y0 : Nat) (hx0 : x0 < pt.width) (hy0 : y0 < pt.height)
    (runs : List (Nat × List Nat))
    (hruns : decodeColumn pt.data (pt.columnOffsets.getD x0 0) (pt.data.length + 1) =
      some runs) :
    ∀ (xs : List Nat) (buf buf2 : Pix),
      renderCols pt palette xs buf = some buf2 →
      (∀ x ∈ xs, x < pt.width) →
      ((x0 ∈ xs → (∃ r ∈ runs, runCovers r y0) →
          buf2 ((y0 * pt.width + x0) * 4 + 3) = 255 ∧
          ∃ r ∈ runs, ∃ i, i < r.2.length ∧ r.1 + i = y0 ∧
            (buf2 ((y0 * pt.width + x0) * 4),
             buf2 ((y0 * pt.width + x0) * 4 + 1),
             buf2 ((y0 * pt.width + x0) * 4 + 2)) =
              palette.getD (r.2.getD i 0) (0, 0, 0)) ∧
       ((∀ r ∈ runs, ¬ runCovers r y0) →
          ∀ c, c < 4 →
            buf2 ((y0 * pt.width + x0) * 4 + c) = buf ((y0 * pt.width + x0) * 4 + c))) := by
  intro xs
  induction xs with
  | nil =>
    intro buf buf2 hr _
    simp only [renderCols, Option.some.injEq] at hr
    subst hr
    exact ⟨fun hmem => absurd hmem (List.not_mem_nil x0), fun _ _ _ => rfl⟩
  | cons x rest ih =>
    intro buf buf2 hr hlt
    simp only [renderCols, bind, Option.bind] at hr
    cases hcol : decodeColumn pt.data (pt.columnOffsets.getD x 0) (pt.data.length + 1) with
    | none => rw [hcol] at hr; simp at hr
    | some runsx =>
      rw [hcol] at hr
      simp only at hr
      have hxlt : x < pt.width := hlt x (List.mem_cons_self x rest)
      have hrest : ∀ a ∈ rest, a < pt.width := fun a ha => hlt a (List.mem_cons_of_mem x ha)
      by_cases hxx : x = x0
      · subst hxx
        have hrx : runsx = runs := by
          rw [hruns] at hcol
          exact (Option.some.injEq _ _ ▸ hcol).symm
        subst hrx
        constructor
        · intro _ hcov
          by_cases hmem2 : x ∈ rest
          · exact (ih _ buf2 hr hrest).1 hmem2 hcov
          · have hval := writeRuns_hit palette pt.width pt.height x hx0 y0 hy0 runsx buf hcov
            have hpres := renderCols_pres pt palette x y0 hx0 rest
              (writeRuns palette pt.width pt.height x runsx buf) buf2 hr hrest hmem2
            obtain ⟨ha, r2, hr2, i, hi, hrow, hrgb⟩ := hval
            have hp0 : buf2 ((y0 * pt.width + x) * 4) =
                writeRuns palette pt.width pt.height x runsx buf ((y0 * pt.width + x) * 4) := by
              have := hpres 0 (by omega)
              simpa using this
            rw [hpres 3 (by omega), hp0, hpres 1 (by omega), hpres 2 (by omega)]
            exact ⟨ha, r2, hr2, i, hi, hrow, hrgb⟩
        · intro hnone c hc
          rw [(ih _ buf2 hr hrest).2 hnone c hc]
          apply writeRuns_pres
          intro r hr2 i hi hyy c2 hc2 heq
          obtain ⟨_, hyeq, _⟩ :=
            pixOffset_inj pt.width x x y0 (r.1 + i) c c2 hx0 hx0 hc hc2 heq
          exact hnone r hr2 ⟨by omega, by omega⟩
      · constructor
        · intro hmem hcov
          have hmem2 : x0 ∈ rest := by
            rcases List.mem_cons.mp hmem with he | he
            · exact absurd he.symm hxx
            · exact he
          exact (ih _ buf2 hr hrest).1 hmem2 hcov
        · intro hnone c hc
          rw [(ih _ buf2 hr hrest).2 hnone c hc]
          apply writeRuns_pres
          intro r hr2 i hi hyy c2 hc2 heq
          obtain ⟨hxeq, _, _⟩ :=
            pixOffset_inj pt.width x0 x y0 (r.1 + i) c c2 hx0 hxlt hc hc2 heq
          exact hxx hxeq.symm

/-- The default used to project the optional render result in theorem
statements. -/
def defaultRendered : RenderedPatch := ⟨0, 0, zeroPix⟩

/-! ### Claim C8 -/

/-- C8: for every patch and palette for which `renderPatch` completes
(and a well-formed 256-entry palette, which makes every byte-valued
palette index resolvable), the result carries the patch's width and
height (a `width*height` RGBA buffer), every pixel covered by some run
of its column is fully opaque with the RGB triple of a covering run's
palette index (the last covering write wins; the exhibited run is a
covering one), and every pixel not covered by any run of its column
keeps alpha 0. -/
theorem renderPatch_spec (pt : Patch) (palette : List (Nat × Nat × Nat))
    (hres : (renderPatch pt palette).isSome = true)
    (_hpal : 256 ≤ palette.length)
    (_hdata : ∀ b ∈ pt.data, b < 256) :
    ((renderPatch pt palette).getD defaultRendered).width = pt.width ∧
    ((renderPatch pt palette).getD defaultRendered).height = pt.height ∧
    ∀ x, x < pt.width → ∀ y, y < pt.height →
      ∀ runs,
        decodeColumn pt.data (pt.columnOffsets.getD x 0) (pt.data.length + 1) =
          some runs →
        ((∃ r ∈ runs, runCovers r y) →
          ((renderPatch pt palette).getD defaultRendered).pixels
              ((y * pt.width + x) * 4 + 3) = 255 ∧
          ∃ r ∈ runs, ∃ i, i < r.2.length ∧ r.1 + i = y ∧
            (((renderPatch pt palette).getD defaultRendered).pixels
                ((y * pt.width + x) * 4),
             ((renderPatch pt palette).getD defaultRendered).pixels
                ((y * pt.width + x) * 4 + 1),
             ((renderPatch pt palette).getD defaultRendered).pixels
                ((y * pt.width + x) * 4 + 2)) =
              palette.getD (r.2.getD i 0) (0, 0, 0)) ∧
        ((∀ r ∈ runs, ¬ runCovers r y) →
          ((renderPatch pt palette).getD defaultRendered).pixels
              ((y * pt.width + x) * 4 + 3) = 0) := by
  cases hrc : renderCols pt palette (List.range pt.width) zeroPix with
  | none =>
    exfalso
    unfold renderPatch at hres
    rw [hrc] at hres
    simp [bind, Option.bind] at hres
  | some buf =>
    have hrp : renderPatch pt palette = some ⟨pt.width, pt.height, buf⟩ := by
      unfold renderPatch
      rw [hrc]
      rfl
    rw [hrp]
    simp only [Option.getD_some]
    refine ⟨by simp, by simp, ?_⟩
    intro x hx y hy runs hruns
    have hmain := renderCols_main pt palette x y hx hy runs hruns
      (List.range pt.width) zeroPix buf hrc (fun a ha => List.mem_range.mp ha)
    refine ⟨fun hcov => hmain.1 (List.mem_range.mpr hx) hcov, fun hnone => ?_⟩
    have := hmain.2 hnone 3 (by omega)
    simpa [zeroPix] using this

/-- The single-column, single-run patch of the claim's test vector:
width 1, height 8, one column at offset 0, one run starting at row 2
with 3 pixels (palette indices 5, 6, 7), then the 255 sentinel. -/
def singleRunPatch : Patch := ⟨1, 8, [0], [2, 3, 0, 5, 6, 7, 0, 255]⟩

/-- C8 witness: for the single-run patch under the 256-entry grayscale
palette, the run's middle pixel (row 3) is opaque and an uncovered row
(row 6) keeps alpha 0. -/
theorem renderPatch_spec_witness :
    ((renderPatch singleRunPatch getDefaultPalette).getD defaultRendered).pixels
      ((3 * singleRunPatch.width + 0) * 4 + 3) = 255 ∧
    ((renderPatch singleRunPatch getDefaultPalette).getD defaultRendered).pixels
      ((6 * singleRunPatch.width + 0) * 4 + 3) = 0 := by
  have h := renderPatch_spec singleRunPatch getDefaultPalette (by rfl)
    (by simp [getDefaultPalette]) (by decide)
  obtain ⟨-, -, hmain⟩ := h
  constructor
  · refine ((hmain 0 (by decide) 3 (by decide) [(2, [5, 6, 7])] (by rfl)).1
      ⟨(2, [5, 6, 7]), ?_, ?_, ?_⟩).1
    · simp
    · show (2 : Nat) ≤ 3
      omega
    · show (3 : Nat) < 2 + [5, 6, 7].length
      simp
  · refine (hmain 0 (by decide) 6 (by decide) [(2, [5, 6, 7])] (by rfl)).2 ?_
    intro r hrr
    simp only [List.mem_singleton] at hrr
    subst hrr
    intro hcov
    rcases hcov with ⟨h1, h2⟩
    simp only [List.length_cons, List.length_nil] at h2
    omega

end DoomWeb
